import Mathlib

/-!
Shallow embedding of `src/librustdoc/visit_ast.rs` (the rustdoc AST visitor:
module-tree builder, re-export inlining resolver, doc(hidden) propagation,
exact-path cache, and the crate-level finalizer).

Conventions of the embedding:
* `HirId`, `DefId` and `Span` are modelled as `Nat`; `Symbol` as `String`.
* The compiler context (`TyCtxt` / `DocContext`) is modelled by the read-only
  structure `Env`: every query the visitor makes of the compiler (item lookup,
  attributes, visibility, enclosing scopes, re-export tables, ...) is a field.
* The visitor's mutable fields (`view_item_stack`, `inlining`,
  `inside_public_path`, `exact_paths`, `modules`) become the state record
  `VState`, threaded explicitly.  The `modules` stack is kept with the
  innermost module (the source's `last`) at the HEAD of the list.
* `FxHashSet`/`FxHashMap` are modelled as lists: the view-item stack as a
  `List Nat` (insert = cons-if-absent, remove = erase), the exact-path map as
  an association list queried with `List.lookup`.
* The mutually recursive visit is made total with a fuel parameter that
  decreases on every recursive call; fuel `0` is a "give up" branch that
  leaves the state untouched.  All definitions are structural, so concrete
  runs evaluate by `decide`/`rfl`.
* The call to the external `lib_embargo_visit_item` collaborator is recorded
  in the `embargoed` log; diagnostics emitted while parsing `cfg_hide`
  predicates are returned as a list of `(span, msg)` pairs.
* Note: line 253 of the source passes a stray `om` argument to
  `maybe_inline_local` that is not in the function's five-parameter
  signature (a leftover of a refactor); the embedding uses the declared
  signature.
-/

namespace VisitAst

/-- `kw::Underscore`, the placeholder "discard" name. -/
def kwUnderscore : String := "_"

/-- `hir::CRATE_HIR_ID`: the hir id of the crate root. -/
def CRATE_HIR_ID : Nat := 0

/-- `DefKind`, restricted to the distinctions `visit_ast.rs` makes:
constructor stubs (`DefKind::Ctor(..)`), macros (`DefKind::Macro(_)`), and
everything else. -/
inductive DefKind where
  | ctor : DefKind
  | macroKind : DefKind
  | other : DefKind
deriving DecidableEq, Repr

/-- `rustc_hir::def::Res`: a resolution result.  `def_` covers
`Res::Def(kind, def_id)`, `selfCtor` covers `Res::SelfCtor(def_id)`, and
`nonDef` covers the variants that carry no `DefId`. -/
inductive Res where
  | def_ : DefKind → Nat → Res
  | selfCtor : Nat → Res
  | nonDef : Res
deriving DecidableEq, Repr

/-- `Res::opt_def_id`. -/
def Res.optDefId : Res → Option Nat
  | .def_ _ did => some did
  | .selfCtor did => some did
  | .nonDef => none

/-- `hir::UseKind`. -/
inductive UseKind where
  | single : UseKind
  | glob : UseKind
  | listStem : UseKind
deriving DecidableEq, Repr

/-- `hir::ItemKind`, restricted to the structure `visit_ast.rs` inspects.
`mod_` carries the module's inner span and child item ids; `use_` carries the
resolution list (`path.res`) and the use kind; `macroDef` carries
`macro_def.macro_rules`; `impl_` carries whether `of_trait` is present. -/
inductive ItemKind where
  | foreignMod : List Nat → ItemKind
  | globalAsm : ItemKind
  | use_ : List Res → UseKind → ItemKind
  | macroDef : Bool → ItemKind
  | mod_ : Nat → List Nat → ItemKind
  | fn : ItemKind
  | externCrate : ItemKind
  | enum : ItemKind
  | struct_ : ItemKind
  | union : ItemKind
  | tyAlias : ItemKind
  | opaqueTy : ItemKind
  | static_ : ItemKind
  | trait_ : ItemKind
  | traitAlias : ItemKind
  | const : ItemKind
  | impl_ : Bool → ItemKind
deriving DecidableEq, Repr

/-- `hir::Item`: hir id, identifier name, owner def id, and kind. -/
structure Item where
  hirId : Nat
  ident : String
  ownerDefId : Nat
  kind : ItemKind
deriving DecidableEq, Repr

/-- `hir::ForeignItem`. -/
structure ForeignItem where
  hirId : Nat
  ident : String
  ownerDefId : Nat
deriving DecidableEq, Repr

/-- `hir::Node`, as returned by `tcx.hir().get`. -/
inductive Node where
  | item : Item → Node
  | foreignItem : ForeignItem → Node
  | other : Node
deriving Repr

/-- A configuration predicate (`clean::cfg::Cfg`); `Cfg::Cfg(name, value)`. -/
structure Cfg where
  name : String
  value : Option String
deriving DecidableEq, Repr

/-- One argument of a `doc(cfg_hide(...))` attribute, abstracting the
external `Cfg::parse` collaborator: the parse either succeeds with a `Cfg`,
fails with a diagnostic (span and message), or the argument has no meta item
(`attr.meta_item()` is `None`) and is silently dropped. -/
inductive CfgSpec where
  | ok : Cfg → CfgSpec
  | perr : Nat → String → CfgSpec
  | noMeta : CfgSpec
deriving DecidableEq, Repr

/-- A meta item nested inside a crate-level attribute list, e.g. the
`cfg_hide(...)` inside `doc(cfg_hide(...))`: its name and, when it is itself
a list, its arguments. -/
structure SubAttr where
  name : String
  args : Option (List CfgSpec)
deriving DecidableEq, Repr

/-- A crate-level attribute: its name and, when it is a list like
`doc(...)`, its nested meta items. -/
structure Attr where
  name : String
  args : Option (List SubAttr)
deriving DecidableEq, Repr

/-- The read-only compiler context: every query `visit_ast.rs` makes of
`TyCtxt`/`DocContext` is a field.  Attribute queries are indexed by hir ids,
visibility queries by def ids. -/
structure Env where
  /-- `tcx.hir().item(item_id)`: look up an item by its hir id. -/
  item : Nat → Item
  /-- `tcx.hir().get(hir_id)`: look up an arbitrary hir node. -/
  getNode : Nat → Node
  /-- `tcx.hir().foreign_item(id)`. -/
  foreignItem : Nat → ForeignItem
  /-- `tcx.hir().get_enclosing_scope(hir_id)`. -/
  enclosingScope : Nat → Option Nat
  /-- `tcx.hir().attrs(hir_id).lists(sym::doc).has_word(sym::hidden)`. -/
  docHiddenWord : Nat → Bool
  /-- `tcx.hir().attrs(hir_id).lists(sym::doc).has_word(sym::no_inline)`. -/
  docNoInlineWord : Nat → Bool
  /-- the `please_inline` query on an import's attributes: some `doc(...)`
  attribute has a nested meta item named `inline`. -/
  docInlineWord : Nat → Bool
  /-- `tcx.visibility(def_id).is_public()`. -/
  visPublic : Nat → Bool
  /-- `cx.cache.effective_visibilities.is_directly_public(tcx, def_id)`. -/
  directlyPublic : Nat → Bool
  /-- `def_id.as_local()` followed by `local_def_id_to_hir_id`: the local hir
  id of a def id, `none` for non-local def ids. -/
  localHir : Nat → Option Nat
  /-- `tcx.hir().local_def_id(hir_id).to_def_id()`. -/
  hirToDef : Nat → Nat
  /-- `tcx.has_attr(def_id, sym::macro_export)`. -/
  macroExportAttr : Nat → Bool
  /-- `cx.output_format.is_json()`. -/
  isJson : Bool
  /-- `tcx.module_reexports(CRATE_DEF_ID)`: the resolutions of the crate's
  re-exports (`export.res` of each entry), `none` when absent. -/
  moduleReexports : Option (List Res)
  /-- `tcx.hir().attrs(CRATE_HIR_ID)`: the crate-level attributes. -/
  crateAttrs : List Attr
  /-- `tcx.crate_name(LOCAL_CRATE)`. -/
  crateName : String
  /-- `tcx.crate_name(did.krate)`. -/
  crateNameOf : Nat → String
  /-- `tcx.def_path(did).data`, each element's `data.get_opt_name()`. -/
  defPathData : Nat → List (Option String)
  /-- `tcx.hir().root_module().spans.inner_span`. -/
  rootInnerSpan : Nat
  /-- the item ids of `tcx.hir().root_module()`. -/
  rootItems : List Nat
  /-- the item ids nested inside this item's bodies (const blocks, function
  bodies, ...), which `walk_item` reaches through `nested_filter::All` and
  hands back to `visit_item`; module children are not among them, since
  `visit_mod` is overridden to do nothing. -/
  nestedItems : Nat → List Nat

/-- `def_id_to_path`: the crate name followed by the named segments of the
definition path (anonymous segments are dropped by the `filter_map`). -/
def def_id_to_path (env : Env) (did : Nat) : List String :=
  env.crateNameOf did :: (env.defPathData did).filterMap id

/-- `inherits_doc_hidden`: walk `get_enclosing_scope` upwards from `node`,
returning `true` as soon as a scope carries `doc(hidden)`.  The `while let`
loop is made total with a fuel bound on the chain length. -/
def inherits_doc_hidden (env : Env) : Nat → Nat → Bool
  | 0, _ => false
  | fuel + 1, node =>
    match env.enclosingScope node with
    | none => false
    | some id => env.docHiddenWord id || inherits_doc_hidden env fuel id

/-- The chain of enclosing scopes of `node` (outermost last), cut off at
`fuel` steps: the nodes `inherits_doc_hidden` inspects. -/
def scopeChain (env : Env) : Nat → Nat → List Nat
  | 0, _ => []
  | fuel + 1, node =>
    match env.enclosingScope node with
    | none => []
    | some id => id :: scopeChain env fuel id

/-- `true` when the enclosing-scope chain of `node` reaches its end (a node
with no enclosing scope) within `fuel` steps, i.e. the fuel is sufficient
for `inherits_doc_hidden` to traverse the whole chain. -/
def scopeChainDone (env : Env) : Nat → Nat → Bool
  | 0, node => (env.enclosingScope node).isNone
  | fuel + 1, node =>
    match env.enclosingScope node with
    | none => true
    | some id => scopeChainDone env fuel id

/-- `Module`: a documentation tree node.  `items` holds
`(item, renamed, import_id)` triples, `foreigns` holds
`(foreign item, renamed)` pairs; all in insertion order. -/
inductive Module where
  | mk : String → Nat → Nat → List Module →
      List (Item × Option String × Option Nat) →
      List (ForeignItem × Option String) → Module
deriving Repr

/-- The module's `name`. -/
def Module.name : Module → String
  | .mk n _ _ _ _ _ => n

/-- The module's hir `id`. -/
def Module.id : Module → Nat
  | .mk _ i _ _ _ _ => i

/-- The module's `where_inner` span. -/
def Module.whereInner : Module → Nat
  | .mk _ _ w _ _ _ => w

/-- The module's child modules (`mods`), in insertion order. -/
def Module.mods : Module → List Module
  | .mk _ _ _ ms _ _ => ms

/-- The module's recorded `items`, in insertion order. -/
def Module.items : Module → List (Item × Option String × Option Nat)
  | .mk _ _ _ _ its _ => its

/-- The module's recorded `foreigns`, in insertion order. -/
def Module.foreigns : Module → List (ForeignItem × Option String)
  | .mk _ _ _ _ _ fs => fs

/-- `Module::new`. -/
def Module.new (name : String) (id : Nat) (whereInner : Nat) : Module :=
  .mk name id whereInner [] [] []

/-- Replace a module's child-module list. -/
def Module.withMods (m : Module) (ms : List Module) : Module :=
  .mk m.name m.id m.whereInner ms m.items m.foreigns

/-- Append an entry to a module's item list. -/
def Module.pushItem (m : Module) (e : Item × Option String × Option Nat) :
    Module :=
  .mk m.name m.id m.whereInner m.mods (m.items ++ [e]) m.foreigns

/-- Append an entry to a module's foreign-item list. -/
def Module.pushForeign (m : Module) (e : ForeignItem × Option String) :
    Module :=
  .mk m.name m.id m.whereInner m.mods m.items (m.foreigns ++ [e])

/-- The mutable state of `RustdocVisitor`: the inlining visit stack
(`view_item_stack`), the `inlining` and `inside_public_path` flags, the
exact-path cache, the module stack (head = innermost), and the log of
targets handed to the external embargo collaborator. -/
structure VState where
  viewItemStack : List Nat
  inlining : Bool
  insidePublicPath : Bool
  exactPaths : List (Nat × List String)
  modules : List Module
  embargoed : List Nat

/-- `add_to_current_mod`: push onto `modules.last_mut().items`. -/
def add_to_current_mod (s : VState) (item : Item) (renamed : Option String)
    (parentId : Option Nat) : VState :=
  match s.modules with
  | [] => s
  | m :: rest => { s with modules := m.pushItem (item, renamed, parentId) :: rest }

/-- `store_path`: `exact_paths.entry(did).or_insert_with(|| def_id_to_path ..)` —
record the path for `did` unless one is already present. -/
def store_path (env : Env) (s : VState) (did : Nat) : VState :=
  match (s.exactPaths.lookup did : Option (List String)) with
  | some _ => s
  | none => { s with exactPaths := (did, def_id_to_path env did) :: s.exactPaths }

/-- `visit_foreign_item_inner`: record the foreign item unless we are
inlining and it is not public. -/
def visit_foreign_item_inner (env : Env) (s : VState) (item : ForeignItem)
    (renamed : Option String) : VState :=
  if !s.inlining || env.visPublic item.ownerDefId then
    match s.modules with
    | [] => s
    | m :: rest => { s with modules := m.pushForeign (item, renamed) :: rest }
  else s

/-- The `ForeignMod` arm of `visit_item_inner`: visit each foreign
declaration of the block with no rename. -/
def visit_foreign_list (env : Env) (s : VState) : List Nat → VState
  | [] => s
  | fid :: rest =>
    visit_foreign_list env
      (visit_foreign_item_inner env s (env.foreignItem fid) none) rest

/-- Is the item a glob import (`matches!(item.kind, ItemKind::Use(_, UseKind::Glob))`)? -/
def isGlobUse (it : Item) : Bool :=
  match it.kind with
  | ItemKind.use_ _ UseKind.glob => true
  | _ => false

/-- `self.view_item_stack.remove(&res_hir_id); ret` — the unconditional
removal on exit from the recursive-visit region of `maybe_inline_local`. -/
def popStackAfter (rid : Nat) (r : Bool × VState) : Bool × VState :=
  (r.1, { r.2 with viewItemStack := r.2.viewItemStack.erase rid })

mutual

/-- `maybe_inline_local`: try to resolve and inline the target of a
`pub use`.  Returns `true` when the target has been inlined.  The fuel makes
the mutual recursion structural; every recursive call consumes one unit. -/
def maybe_inline_local (env : Env) :
    Nat → Nat → Res → Option String → Bool → Bool → VState → Bool × VState
  | 0, _, _, _, _, _, s => (false, s)
  | fuel + 1, id, res, renamed, glob, please_inline, s =>
    if env.isJson then (false, s)
    else
      match res.optDefId with
      | none => (false, s)
      | some res_did =>
        -- Don't inline `doc(hidden)` imports so they can be stripped later.
        let is_no_inline := env.docNoInlineWord id || env.docHiddenWord id
        if !(env.localHir res_did).isSome && !is_no_inline then
          -- cross-crate target: notify the embargo collaborator, never inline here
          (false, { s with embargoed := s.embargoed ++ [res_did] })
        else
          match env.localHir res_did with
          | none => (false, s)
          | some res_hir_id =>
            let is_private := !env.directlyPublic res_did
            let is_hidden := inherits_doc_hidden env fuel res_hir_id
            -- Only inline if requested or if the item would otherwise be stripped.
            if (!please_inline && !is_private && !is_hidden) || is_no_inline then
              (false, s)
            else if s.viewItemStack.contains res_hir_id then
              (false, s)
            else
              let s1 : VState := { s with viewItemStack := res_hir_id :: s.viewItemStack }
              popStackAfter res_hir_id
                (match env.getNode res_hir_id, glob with
                | Node.item it, true =>
                  match it.kind with
                  | ItemKind.mod_ _ mids =>
                    let prev := s1.inlining
                    let s2 := visit_inline_mod_items env fuel id
                      { s1 with inlining := true } mids
                    (true, { s2 with inlining := prev })
                  | _ => (false, s1)
                | Node.item it, false =>
                  let prev := s1.inlining
                  let s2 := (visit_item_inner env fuel
                    { s1 with inlining := true } it renamed (some id)).2
                  (true, { s2 with inlining := prev })
                | Node.foreignItem fit, false =>
                  let prev := s1.inlining
                  let s2 := visit_foreign_item_inner env
                    { s1 with inlining := true } fit renamed
                  (true, { s2 with inlining := prev })
                | _, _ => (false, s1))
termination_by structural fuel => fuel


/-- The loop of the glob-module arm of `maybe_inline_local`: visit every
child item of the inlined module with no rename, with the import as parent. -/
def visit_inline_mod_items (env : Env) : Nat → Nat → VState → List Nat → VState
  | 0, _, s, _ => s
  | _ + 1, _, s, [] => s
  | fuel + 1, id, s, i :: rest =>
    visit_inline_mod_items env fuel id
      (visit_item_inner env fuel s (env.item i) none (some id)).2 rest
termination_by structural fuel => fuel


/-- `visit_item_inner`: the per-item inclusion step.  Its `Bool` result is
the value the source returns (line 313). -/
def visit_item_inner (env : Env) :
    Nat → VState → Item → Option String → Option Nat → Bool × VState
  | 0, s, _, _, _ => (true, s)
  | fuel + 1, s, item, renamed, parent_id =>
    let name := renamed.getD item.ident
    let def_id := item.ownerDefId
    let is_pub := env.visPublic def_id
    let s := if is_pub then store_path env s def_id else s
    match item.kind with
    | ItemKind.foreignMod fids => (true, visit_foreign_list env s fids)
    | k =>
      -- If we're inlining, skip private items or item reexported as "_".
      if s.inlining && (!is_pub || renamed == some kwUnderscore) then (true, s)
      else
        match k with
        | ItemKind.globalAsm => (true, s)
        | ItemKind.use_ _ UseKind.listStem => (true, s)
        | ItemKind.use_ resList kind =>
          (true, visit_use_resolutions env fuel item renamed parent_id name
            is_pub kind resList s)
        | ItemKind.macroDef macroRulesForm =>
          let is_macro_2_0 := !macroRulesForm
          let nonexported := !env.macroExportAttr def_id
          if is_macro_2_0 || nonexported || s.inlining then
            (true, add_to_current_mod s item renamed none)
          else (true, s)
        | ItemKind.mod_ innerSpan mids =>
          (true, enter_mod env fuel s item.hirId innerSpan mids name)
        | ItemKind.fn | ItemKind.externCrate | ItemKind.enum
        | ItemKind.struct_ | ItemKind.union | ItemKind.tyAlias
        | ItemKind.opaqueTy | ItemKind.static_ | ItemKind.trait_
        | ItemKind.traitAlias =>
          (true, add_to_current_mod s item renamed parent_id)
        | ItemKind.const =>
          -- Underscore constants are never useful in documentation.
          if name != kwUnderscore then
            (true, add_to_current_mod s item renamed parent_id)
          else (true, s)
        | ItemKind.impl_ ofTrait =>
          -- Don't duplicate impls when inlining or when implementing a trait.
          if !s.inlining && !ofTrait then
            (true, add_to_current_mod s item none none)
          else (true, s)
        | ItemKind.foreignMod _ => (true, s)  -- unreachable: peeled off above
termination_by structural fuel => fuel


/-- The body of the `for &res in &path.res` loop of the `Use` arm, for one
resolution. -/
def visit_use_res_step (env : Env) :
    Nat → Item → Option String → Option Nat → String → Bool → UseKind →
    Res → VState → VState
  | 0, _, _, _, _, _, _, _, s => s
  | fuel + 1, item, renamed, parent_id, name, is_pub, kind, res, s =>
    match res with
    -- Constructor stubs show up alongside their definitions: discard them.
    | Res.def_ DefKind.ctor _ => s
    | Res.selfCtor _ => s
    | _ =>
      if is_pub && s.insidePublicPath then
        let please_inline := env.docInlineWord item.hirId
        let is_glob := kind == UseKind.glob
        let ident := if is_glob then none else some name
        let ml := maybe_inline_local env fuel item.hirId res ident is_glob
          please_inline s
        if ml.1 then ml.2
        else add_to_current_mod ml.2 item renamed parent_id
      else add_to_current_mod s item renamed parent_id
termination_by structural fuel => fuel


/-- The `for &res in &path.res` loop of the `Use` arm of `visit_item_inner`. -/
def visit_use_resolutions (env : Env) :
    Nat → Item → Option String → Option Nat → String → Bool → UseKind →
    List Res → VState → VState
  | 0, _, _, _, _, _, _, _, s => s
  | _ + 1, _, _, _, _, _, _, [], s => s
  | fuel + 1, item, renamed, parent_id, name, is_pub, kind, res :: rest, s =>
    visit_use_resolutions env fuel item renamed parent_id name is_pub kind rest
      (visit_use_res_step env fuel item renamed parent_id name is_pub kind res s)
termination_by structural fuel => fuel


/-- `enter_mod`: push a fresh module frame, visit the module body, then pop
the frame and append it to the parent frame's child list. -/
def enter_mod (env : Env) :
    Nat → VState → Nat → Nat → List Nat → String → VState
  | 0, s, _, _, _, _ => s
  | fuel + 1, s, id, innerSpan, mids, name =>
    let s := { s with modules := Module.new name id innerSpan :: s.modules }
    let s := visit_mod_contents env fuel s id mids
    match s.modules with
    | last :: m :: rest =>
      { s with modules := m.withMods (m.mods ++ [last]) :: rest }
    | other =>
      -- fewer than two frames: the source's `unwrap` panics here; the model
      -- drops the popped frame and keeps the (empty) remaining stack.
      { s with modules := other.tail }
termination_by structural fuel => fuel


/-- `visit_mod_contents`: narrow `inside_public_path` by the module's own
visibility, run the two passes (non-glob items first, then glob imports),
and restore `inside_public_path`. -/
def visit_mod_contents (env : Env) : Nat → VState → Nat → List Nat → VState
  | 0, s, _, _ => s
  | fuel + 1, s, id, mids =>
    let def_id := env.hirToDef id
    let orig_inside_public_path := s.insidePublicPath
    let s := { s with insidePublicPath := s.insidePublicPath && env.visPublic def_id }
    let s := visit_mod_items env fuel false s mids
    -- To match import precedence, visit glob imports last.
    let s := visit_mod_items env fuel true s mids
    { s with insidePublicPath := orig_inside_public_path }
termination_by structural fuel => fuel


/-- One pass of `visit_mod_contents` over the module's item ids: with
`globPass = false` it visits exactly the non-glob items (first loop), with
`globPass = true` exactly the glob imports (second loop), in declaration
order. -/
def visit_mod_items (env : Env) : Nat → Bool → VState → List Nat → VState
  | 0, _, s, _ => s
  | _ + 1, _, s, [] => s
  | fuel + 1, globPass, s, i :: rest =>
    let item := env.item i
    let s := if isGlobUse item == globPass then visit_item env fuel s item else s
    visit_mod_items env fuel globPass s rest
termination_by structural fuel => fuel


/-- The `Visitor::visit_item` override: compute the parent module id, run
the per-item step, and descend into nested contents iff it returned `true`. -/
def visit_item (env : Env) : Nat → VState → Item → VState
  | 0, s, _ => s
  | fuel + 1, s, i =>
    let parent_id := match s.modules with
      | _ :: m2 :: _ => some m2.id
      | _ => none
    let pr := visit_item_inner env fuel s i none parent_id
    if pr.1 then walk_item_nested env fuel pr.2 i else pr.2
termination_by structural fuel => fuel


/-- The model of `walk_item`: hand each item nested in the item's bodies
back to `visit_item` (the `nested_filter::All` traversal). -/
def walk_item_nested (env : Env) : Nat → VState → Item → VState
  | 0, s, _ => s
  | fuel + 1, s, i => visit_nested_list env fuel s (env.nestedItems i.hirId)
termination_by structural fuel => fuel


/-- The loop of `walk_item_nested`. -/
def visit_nested_list (env : Env) : Nat → VState → List Nat → VState
  | 0, s, _ => s
  | _ + 1, s, [] => s
  | fuel + 1, s, i :: rest =>
    visit_nested_list env fuel (visit_item env fuel s (env.item i)) rest
termination_by structural fuel => fuel
end

/-- `RustdocVisitor::new`: the initial visitor state.  The crate-root hir id
is pre-seeded on the view-item stack ("if the root is re-exported, terminate
all recursion"), and the root module frame is pre-pushed. -/
def initState (env : Env) : VState where
  viewItemStack := [CRATE_HIR_ID]
  inlining := false
  insidePublicPath := true
  exactPaths := []
  modules := [Module.new env.crateName CRATE_HIR_ID env.rootInnerSpan]
  embargoed := []

/-- The finalizer loop of `visit`: for every crate-level re-export resolving
to a locally defined `#[macro_export]` macro not yet in `inserted`, append
its item to the top-level module with no rename. -/
def promote_macro_reexports (env : Env) :
    List Res → List Nat → Module → Module × List Nat
  | [], inserted, m => (m, inserted)
  | res :: rest, inserted, m =>
    match res with
    | Res.def_ DefKind.macroKind def_id =>
      match env.localHir def_id with
      | some local_hir =>
        if env.macroExportAttr def_id && !inserted.contains def_id then
          promote_macro_reexports env rest (def_id :: inserted)
            (m.pushItem (env.item local_hir, none, none))
        else promote_macro_reexports env rest inserted m
      | none => promote_macro_reexports env rest inserted m
    | _ => promote_macro_reexports env rest inserted m

/-- Extract the `Cfg` of a successfully parsed `cfg_hide` argument
(`Cfg::parse(..).map_err(report).ok()`, keeping the `Some` case). -/
def cfgSpecOk : CfgSpec → Option Cfg
  | CfgSpec.ok c => some c
  | _ => none

/-- Extract the diagnostic of a failed `cfg_hide` parse (the `span_err`
emitted by the `map_err` closure). -/
def cfgSpecErr : CfgSpec → Option (Nat × String)
  | CfgSpec.perr sp msg => some (sp, msg)
  | _ => none

/-- The `hidden_cfg` harvest of `visit` (lines 356-380): crate attributes
named `doc`, their nested lists flattened, kept when named `cfg_hide`, each
argument parsed (failures dropped), chained with the built-in predicates
`test`, `doc` and `doctest`. -/
def hidden_cfg (attrs : List Attr) : List Cfg :=
  ((((attrs.filter (fun attr => attr.name == "doc")).flatMap
      (fun attr => attr.args.getD [])).filter
      (fun attr => attr.name == "cfg_hide")).flatMap
    (fun attr => (attr.args.getD []).filterMap cfgSpecOk))
  ++ [⟨"test", none⟩, ⟨"doc", none⟩, ⟨"doctest", none⟩]

/-- The diagnostics the `hidden_cfg` harvest emits: one `span_err` per
`cfg_hide` argument whose parse fails, in traversal order. -/
def hidden_cfg_diags (attrs : List Attr) : List (Nat × String) :=
  (((attrs.filter (fun attr => attr.name == "doc")).flatMap
      (fun attr => attr.args.getD [])).filter
      (fun attr => attr.name == "cfg_hide")).flatMap
    (fun attr => (attr.args.getD []).filterMap cfgSpecErr)

/-- What `RustdocVisitor::visit` hands downstream: the top-level module, the
config-hide set, the exact-path cache, the diagnostics emitted, and the log
of embargo notifications. -/
structure VisitResult where
  topLevelModule : Module
  hiddenCfg : List Cfg
  exactPaths : List (Nat × List String)
  diags : List (Nat × String)
  embargoed : List Nat

/-- `RustdocVisitor::visit`: walk the root module's contents, promote
crate-level macro re-exports, harvest `cfg_hide`, and install the caches. -/
def visit (env : Env) (fuel : Nat) : VisitResult :=
  let s := visit_mod_contents env fuel (initState env) CRATE_HIR_ID env.rootItems
  let top_level_module :=
    match s.modules with
    | m :: _ => m
    | [] => Module.new env.crateName CRATE_HIR_ID env.rootInnerSpan
  let top_level_module :=
    (promote_macro_reexports env (env.moduleReexports.getD []) [] top_level_module).1
  { topLevelModule := top_level_module
    hiddenCfg := hidden_cfg env.crateAttrs
    exactPaths := s.exactPaths
    diags := hidden_cfg_diags env.crateAttrs
    embargoed := s.embargoed }

/-! ## Invariant layer: how a visit step may change the state

A module frame on the stack is only ever *extended*: its identity fields
stay, and entries are appended to its `items`, `mods` and `foreigns` lists.
Across any complete call of the visitor family, the view-item stack, the
`inlining` flag and `inside_public_path` return to their prior values, the
module stack keeps its shape frame-by-frame, and every exact-path entry ever
added is for a public definition. -/

/-- `m'` extends `m`: same identity, each recorded list grown only at the
end. -/
structure ModExt (m m' : Module) : Prop where
  name_eq : m'.name = m.name
  id_eq : m'.id = m.id
  winner_eq : m'.whereInner = m.whereInner
  items_pre : m.items <+: m'.items
  mods_pre : m.mods <+: m'.mods
  foreigns_pre : m.foreigns <+: m'.foreigns

theorem modExt_refl (m : Module) : ModExt m m :=
  ⟨rfl, rfl, rfl, List.prefix_rfl, List.prefix_rfl, List.prefix_rfl⟩

theorem modExt_trans {a b c : Module} (h1 : ModExt a b) (h2 : ModExt b c) :
    ModExt a c :=
  ⟨h2.name_eq.trans h1.name_eq, h2.id_eq.trans h1.id_eq,
   h2.winner_eq.trans h1.winner_eq, h1.items_pre.trans h2.items_pre,
   h1.mods_pre.trans h2.mods_pre, h1.foreigns_pre.trans h2.foreigns_pre⟩

theorem forall₂_modExt_refl (l : List Module) : List.Forall₂ ModExt l l :=
  (List.forall₂_same).mpr (fun m _ => modExt_refl m)

theorem forall₂_modExt_trans :
    ∀ {a b c : List Module}, List.Forall₂ ModExt a b →
      List.Forall₂ ModExt b c → List.Forall₂ ModExt a c
  | _, _, _, List.Forall₂.nil, List.Forall₂.nil => List.Forall₂.nil
  | _, _, _, List.Forall₂.cons h1 t1, List.Forall₂.cons h2 t2 =>
    List.Forall₂.cons (modExt_trans h1 h2) (forall₂_modExt_trans t1 t2)

/-- How a state may relate to the state a visitor call returns: the stack
and the two flags are restored, the module stack is extended frame-wise, and
any new exact-path entry is for a public definition. -/
structure StatePres (env : Env) (s s' : VState) : Prop where
  stack_eq : s'.viewItemStack = s.viewItemStack
  inl_eq : s'.inlining = s.inlining
  ipp_eq : s'.insidePublicPath = s.insidePublicPath
  mods_ext : List.Forall₂ ModExt s.modules s'.modules
  paths_pub : ∀ e ∈ s'.exactPaths, e ∈ s.exactPaths ∨ env.visPublic e.1 = true

theorem statePres_refl (env : Env) (s : VState) : StatePres env s s :=
  ⟨rfl, rfl, rfl, forall₂_modExt_refl _, fun _ h => Or.inl h⟩

theorem statePres_trans {env : Env} {a b c : VState}
    (h1 : StatePres env a b) (h2 : StatePres env b c) : StatePres env a c where
  stack_eq := h2.stack_eq.trans h1.stack_eq
  inl_eq := h2.inl_eq.trans h1.inl_eq
  ipp_eq := h2.ipp_eq.trans h1.ipp_eq
  mods_ext := forall₂_modExt_trans h1.mods_ext h2.mods_ext
  paths_pub := fun e he =>
    match h2.paths_pub e he with
    | Or.inr hp => Or.inr hp
    | Or.inl hb => h1.paths_pub e hb

theorem statePres_add_to_current_mod (env : Env) (s : VState) (it : Item)
    (r : Option String) (p : Option Nat) :
    StatePres env s (add_to_current_mod s it r p) := by
  unfold add_to_current_mod
  cases hm : s.modules with
  | nil => exact statePres_refl env s
  | cons m rest =>
    refine ⟨rfl, rfl, rfl, ?_, fun _ h => Or.inl h⟩
    rw [hm]
    exact List.Forall₂.cons
      ⟨rfl, rfl, rfl, List.prefix_append _ _, List.prefix_rfl, List.prefix_rfl⟩
      (forall₂_modExt_refl rest)

theorem statePres_store_path (env : Env) (s : VState) (did : Nat)
    (hpub : env.visPublic did = true) :
    StatePres env s (store_path env s did) := by
  unfold store_path
  cases hl : (s.exactPaths.lookup did : Option (List String)) with
  | some p => exact statePres_refl env s
  | none =>
    refine ⟨rfl, rfl, rfl, forall₂_modExt_refl _, fun e he => ?_⟩
    rcases List.mem_cons.mp he with h | h
    · exact Or.inr (h ▸ hpub)
    · exact Or.inl h

theorem statePres_visit_foreign_item_inner (env : Env) (s : VState)
    (fi : ForeignItem) (r : Option String) :
    StatePres env s (visit_foreign_item_inner env s fi r) := by
  unfold visit_foreign_item_inner
  split
  · cases hm : s.modules with
    | nil => exact statePres_refl env s
    | cons m rest =>
      refine ⟨rfl, rfl, rfl, ?_, fun _ h => Or.inl h⟩
      rw [hm]
      exact List.Forall₂.cons
        ⟨rfl, rfl, rfl, List.prefix_rfl, List.prefix_rfl, List.prefix_append _ _⟩
        (forall₂_modExt_refl rest)
  · exact statePres_refl env s

theorem statePres_visit_foreign_list (env : Env) (s : VState)
    (fids : List Nat) : StatePres env s (visit_foreign_list env s fids) := by
  induction fids generalizing s with
  | nil => exact statePres_refl env s
  | cons f rest ih =>
    exact statePres_trans
      (statePres_visit_foreign_item_inner env s (env.foreignItem f) none) (ih _)

@[simp] theorem store_path_viewItemStack (env : Env) (s : VState) (d : Nat) :
    (store_path env s d).viewItemStack = s.viewItemStack := by
  unfold store_path; split <;> rfl

@[simp] theorem store_path_inlining (env : Env) (s : VState) (d : Nat) :
    (store_path env s d).inlining = s.inlining := by
  unfold store_path; split <;> rfl

@[simp] theorem store_path_insidePublicPath (env : Env) (s : VState) (d : Nat) :
    (store_path env s d).insidePublicPath = s.insidePublicPath := by
  unfold store_path; split <;> rfl

@[simp] theorem store_path_modules (env : Env) (s : VState) (d : Nat) :
    (store_path env s d).modules = s.modules := by
  unfold store_path; split <;> rfl

@[simp] theorem store_path_embargoed (env : Env) (s : VState) (d : Nat) :
    (store_path env s d).embargoed = s.embargoed := by
  unfold store_path; split <;> rfl

@[simp] theorem add_to_current_mod_viewItemStack (s : VState) (it : Item)
    (r : Option String) (p : Option Nat) :
    (add_to_current_mod s it r p).viewItemStack = s.viewItemStack := by
  unfold add_to_current_mod; split <;> rfl

@[simp] theorem add_to_current_mod_inlining (s : VState) (it : Item)
    (r : Option String) (p : Option Nat) :
    (add_to_current_mod s it r p).inlining = s.inlining := by
  unfold add_to_current_mod; split <;> rfl

@[simp] theorem add_to_current_mod_insidePublicPath (s : VState) (it : Item)
    (r : Option String) (p : Option Nat) :
    (add_to_current_mod s it r p).insidePublicPath = s.insidePublicPath := by
  unfold add_to_current_mod; split <;> rfl

@[simp] theorem add_to_current_mod_exactPaths (s : VState) (it : Item)
    (r : Option String) (p : Option Nat) :
    (add_to_current_mod s it r p).exactPaths = s.exactPaths := by
  unfold add_to_current_mod; split <;> rfl

@[simp] theorem Module.name_new (n : String) (i w : Nat) :
    (Module.new n i w).name = n := rfl

@[simp] theorem Module.id_new (n : String) (i w : Nat) :
    (Module.new n i w).id = i := rfl

@[simp] theorem Module.mods_new (n : String) (i w : Nat) :
    (Module.new n i w).mods = [] := rfl

@[simp] theorem Module.items_new (n : String) (i w : Nat) :
    (Module.new n i w).items = [] := rfl

@[simp] theorem Module.foreigns_new (n : String) (i w : Nat) :
    (Module.new n i w).foreigns = [] := rfl

@[simp] theorem Module.name_withMods (m : Module) (ms : List Module) :
    (m.withMods ms).name = m.name := rfl

@[simp] theorem Module.id_withMods (m : Module) (ms : List Module) :
    (m.withMods ms).id = m.id := rfl

@[simp] theorem Module.winner_withMods (m : Module) (ms : List Module) :
    (m.withMods ms).whereInner = m.whereInner := rfl

@[simp] theorem Module.mods_withMods (m : Module) (ms : List Module) :
    (m.withMods ms).mods = ms := rfl

@[simp] theorem Module.items_withMods (m : Module) (ms : List Module) :
    (m.withMods ms).items = m.items := rfl

@[simp] theorem Module.foreigns_withMods (m : Module) (ms : List Module) :
    (m.withMods ms).foreigns = m.foreigns := rfl

@[simp] theorem Module.name_pushItem (m : Module)
    (e : Item × Option String × Option Nat) : (m.pushItem e).name = m.name := rfl

@[simp] theorem Module.id_pushItem (m : Module)
    (e : Item × Option String × Option Nat) : (m.pushItem e).id = m.id := rfl

@[simp] theorem Module.mods_pushItem (m : Module)
    (e : Item × Option String × Option Nat) : (m.pushItem e).mods = m.mods := rfl

@[simp] theorem Module.items_pushItem (m : Module)
    (e : Item × Option String × Option Nat) :
    (m.pushItem e).items = m.items ++ [e] := rfl

@[simp] theorem Module.foreigns_pushItem (m : Module)
    (e : Item × Option String × Option Nat) :
    (m.pushItem e).foreigns = m.foreigns := rfl

@[simp] theorem Module.items_pushForeign (m : Module)
    (e : ForeignItem × Option String) : (m.pushForeign e).items = m.items := rfl

@[simp] theorem Module.foreigns_pushForeign (m : Module)
    (e : ForeignItem × Option String) :
    (m.pushForeign e).foreigns = m.foreigns ++ [e] := rfl

/-- Restoring the saved `inlining` flag after a recursive visit that ran
with `inlining := true` yields a state-preserving step. -/
theorem statePres_restore_inlining {env : Env} {s1 s2 : VState}
    (h : StatePres env { s1 with inlining := true } s2) :
    StatePres env s1 { s2 with inlining := s1.inlining } where
  stack_eq := h.stack_eq
  inl_eq := rfl
  ipp_eq := h.ipp_eq
  mods_ext := h.mods_ext
  paths_pub := h.paths_pub

/-- Removing the just-pushed id on exit from `maybe_inline_local` restores
the stack, so the step preserves the state. -/
theorem statePres_popStackAfter {env : Env} {s : VState} (rid : Nat)
    (r : Bool × VState)
    (h : StatePres env { s with viewItemStack := rid :: s.viewItemStack } r.2) :
    StatePres env s (popStackAfter rid r).2 where
  stack_eq := by
    have hst : r.2.viewItemStack = rid :: s.viewItemStack := h.stack_eq
    show (r.2.viewItemStack.erase rid) = s.viewItemStack
    rw [hst, List.erase_cons_head]
  inl_eq := h.inl_eq
  ipp_eq := h.ipp_eq
  mods_ext := h.mods_ext
  paths_pub := h.paths_pub

/-- The master invariant: every function of the visitor family returns a
state that restores the view-item stack, the `inlining` flag and
`inside_public_path`, only extends the module frames, and only adds
exact-path entries for public definitions. -/
theorem visitPres (env : Env) : ∀ fuel : Nat,
    (∀ id res renamed glob pi s,
      StatePres env s (maybe_inline_local env fuel id res renamed glob pi s).2) ∧
    (∀ id s ids, StatePres env s (visit_inline_mod_items env fuel id s ids)) ∧
    (∀ s item renamed pid,
      StatePres env s (visit_item_inner env fuel s item renamed pid).2) ∧
    (∀ item renamed pid name ip k res s,
      StatePres env s (visit_use_res_step env fuel item renamed pid name ip k res s)) ∧
    (∀ item renamed pid name ip k rl s,
      StatePres env s (visit_use_resolutions env fuel item renamed pid name ip k rl s)) ∧
    (∀ s id sp ids nm, StatePres env s (enter_mod env fuel s id sp ids nm)) ∧
    (∀ s id ids, StatePres env s (visit_mod_contents env fuel s id ids)) ∧
    (∀ gp s ids, StatePres env s (visit_mod_items env fuel gp s ids)) ∧
    (∀ s i, StatePres env s (visit_item env fuel s i)) ∧
    (∀ s i, StatePres env s (walk_item_nested env fuel s i)) ∧
    (∀ s ids, StatePres env s (visit_nested_list env fuel s ids)) := by
  intro fuel
  induction fuel with
  | zero =>
    refine ⟨?_, ?_, ?_, ?_, ?_, ?_, ?_, ?_, ?_, ?_, ?_⟩ <;> intros <;>
      exact statePres_refl env _
  | succ fuel ih =>
    obtain ⟨ih_mil, ih_imi, ih_vii, ih_step, ih_res, ih_em, ih_vmc, ih_vmi,
      ih_vi, ih_walk, ih_nest⟩ := ih
    have hmil : ∀ id res renamed glob pi s,
        StatePres env s (maybe_inline_local env (fuel + 1) id res renamed glob pi s).2 := by
      intro id res renamed glob pi s
      simp only [maybe_inline_local]
      split
      · exact statePres_refl env s
      split
      · exact statePres_refl env s
      rename_i res_did _
      split
      · exact ⟨rfl, rfl, rfl, forall₂_modExt_refl _, fun _ h => Or.inl h⟩
      split
      · exact statePres_refl env s
      rename_i res_hir_id _
      split
      · exact statePres_refl env s
      split
      · exact statePres_refl env s
      refine statePres_popStackAfter res_hir_id _ ?_
      split
      · split
        · exact statePres_restore_inlining (ih_imi id _ _)
        · exact statePres_refl env _
      · exact statePres_restore_inlining (ih_vii _ _ _ _)
      · exact statePres_restore_inlining
          (statePres_visit_foreign_item_inner env _ _ _)
      · exact statePres_refl env _
    have himi : ∀ id s ids,
        StatePres env s (visit_inline_mod_items env (fuel + 1) id s ids) := by
      intro id s ids
      cases ids with
      | nil => exact statePres_refl env s
      | cons i rest =>
        simp only [visit_inline_mod_items]
        exact statePres_trans (ih_vii s (env.item i) none (some id)) (ih_imi id _ rest)
    have hvii : ∀ s item renamed pid,
        StatePres env s (visit_item_inner env (fuel + 1) s item renamed pid).2 := by
      intro s item renamed pid
      simp only [visit_item_inner]
      have hs' : StatePres env s
          (if env.visPublic item.ownerDefId then store_path env s item.ownerDefId else s) := by
        split
        · exact statePres_store_path env s item.ownerDefId (by assumption)
        · exact statePres_refl env s
      generalize hS :
        (if env.visPublic item.ownerDefId then store_path env s item.ownerDefId else s) = s'
      rw [hS] at hs'
      split
      · exact statePres_trans hs' (statePres_visit_foreign_list env s' _)
      · split
        · exact hs'
        · split
          all_goals
            first
              | exact hs'
              | exact statePres_trans hs' (statePres_add_to_current_mod env s' item renamed pid)
              | exact statePres_trans hs' (statePres_add_to_current_mod env s' item renamed none)
              | exact statePres_trans hs' (statePres_add_to_current_mod env s' item none none)
              | exact statePres_trans hs' (ih_res item renamed pid _ _ _ _ s')
              | exact statePres_trans hs' (ih_em s' item.hirId _ _ _)
              | (split
                 all_goals
                   first
                     | exact hs'
                     | exact statePres_trans hs'
                         (statePres_add_to_current_mod env s' item renamed pid)
                     | exact statePres_trans hs'
                         (statePres_add_to_current_mod env s' item renamed none)
                     | exact statePres_trans hs'
                         (statePres_add_to_current_mod env s' item none none))
    have hstep : ∀ item renamed pid name ip k res s,
        StatePres env s
          (visit_use_res_step env (fuel + 1) item renamed pid name ip k res s) := by
      intro item renamed pid name ip k res s
      simp only [visit_use_res_step]
      split
      · exact statePres_refl env s
      · exact statePres_refl env s
      · split
        · split
          all_goals split
          all_goals
            first
              | exact ih_mil item.hirId res _ _ _ s
              | exact statePres_trans (ih_mil item.hirId res _ _ _ s)
                  (statePres_add_to_current_mod env _ item renamed pid)
        · exact statePres_add_to_current_mod env s item renamed pid
    have hres : ∀ item renamed pid name ip k rl s,
        StatePres env s
          (visit_use_resolutions env (fuel + 1) item renamed pid name ip k rl s) := by
      intro item renamed pid name ip k rl s
      cases rl with
      | nil => exact statePres_refl env s
      | cons r rest =>
        simp only [visit_use_resolutions]
        exact statePres_trans (ih_step item renamed pid name ip k r s)
          (ih_res item renamed pid name ip k rest _)
    have hem : ∀ s id sp ids nm,
        StatePres env s (enter_mod env (fuel + 1) s id sp ids nm) := by
      intro s id sp ids nm
      simp only [enter_mod]
      have h1 := ih_vmc { s with modules := Module.new nm id sp :: s.modules } id ids
      have hm : List.Forall₂ ModExt (Module.new nm id sp :: s.modules)
          (visit_mod_contents env fuel
            { s with modules := Module.new nm id sp :: s.modules } id ids).modules :=
        h1.mods_ext
      rcases List.forall₂_cons_left_iff.mp hm with ⟨last, rest', hlast, hrest, hmodeq⟩
      split
      · rename_i last2 m rest heq
        rw [heq] at hmodeq
        obtain ⟨hl2, hr2⟩ := List.cons_eq_cons.mp hmodeq
        rw [← hr2] at hrest
        rcases List.forall₂_cons_right_iff.mp hrest with ⟨p, ps, hpm, hps, hsm⟩
        refine ⟨h1.stack_eq, h1.inl_eq, h1.ipp_eq, ?_, fun e he => h1.paths_pub e he⟩
        show List.Forall₂ ModExt s.modules (m.withMods (m.mods ++ [last2]) :: rest)
        rw [hsm]
        refine List.Forall₂.cons ?_ hps
        exact ⟨by simpa using hpm.name_eq, by simpa using hpm.id_eq,
          by simpa using hpm.winner_eq, by simpa using hpm.items_pre,
          by simpa using hpm.mods_pre.trans (List.prefix_append m.mods [last2]),
          by simpa using hpm.foreigns_pre⟩
      · rename_i hne
        cases rest' with
        | cons m rest => exact absurd hmodeq (hne last m rest)
        | nil =>
          have hsm : s.modules = [] := List.forall₂_nil_right_iff.mp hrest
          refine ⟨h1.stack_eq, h1.inl_eq, h1.ipp_eq, ?_, fun e he => h1.paths_pub e he⟩
          show List.Forall₂ ModExt s.modules
            (visit_mod_contents env fuel
              { s with modules := Module.new nm id sp :: s.modules } id ids).modules.tail
          rw [hmodeq, hsm]
          exact List.Forall₂.nil
    have hvmc : ∀ s id ids,
        StatePres env s (visit_mod_contents env (fuel + 1) s id ids) := by
      intro s id ids
      simp only [visit_mod_contents]
      have h1 := ih_vmi false
        { s with insidePublicPath := s.insidePublicPath && env.visPublic (env.hirToDef id) }
        ids
      have h2 := ih_vmi true
        (visit_mod_items env fuel false
          { s with insidePublicPath := s.insidePublicPath && env.visPublic (env.hirToDef id) }
          ids)
        ids
      refine ⟨?_, ?_, rfl, ?_, ?_⟩
      · show (visit_mod_items env fuel true _ ids).viewItemStack = s.viewItemStack
        rw [h2.stack_eq, h1.stack_eq]
      · show (visit_mod_items env fuel true _ ids).inlining = s.inlining
        rw [h2.inl_eq, h1.inl_eq]
      · exact forall₂_modExt_trans h1.mods_ext h2.mods_ext
      · intro e he
        rcases h2.paths_pub e he with h | h
        · exact h1.paths_pub e h
        · exact Or.inr h
    have hvmi : ∀ gp s ids,
        StatePres env s (visit_mod_items env (fuel + 1) gp s ids) := by
      intro gp s ids
      cases ids with
      | nil => exact statePres_refl env s
      | cons i rest =>
        simp only [visit_mod_items]
        refine statePres_trans ?_ (ih_vmi gp _ rest)
        split
        · exact ih_vi s (env.item i)
        · exact statePres_refl env s
    have hvi : ∀ s i, StatePres env s (visit_item env (fuel + 1) s i) := by
      intro s i
      simp only [visit_item]
      split
      · exact statePres_trans (ih_vii s i none _) (ih_walk _ i)
      · exact ih_vii s i none _
    have hwalk : ∀ s i, StatePres env s (walk_item_nested env (fuel + 1) s i) := by
      intro s i
      simp only [walk_item_nested]
      exact ih_nest s _
    have hnest : ∀ s ids,
        StatePres env s (visit_nested_list env (fuel + 1) s ids) := by
      intro s ids
      cases ids with
      | nil => exact statePres_refl env s
      | cons i rest =>
        simp only [visit_nested_list]
        exact statePres_trans (ih_vi s (env.item i)) (ih_nest _ rest)
    exact ⟨hmil, himi, hvii, hstep, hres, hem, hvmc, hvmi, hvi, hwalk, hnest⟩

end VisitAst

namespace VisitAst

/-! ## Claim theorems -/

/-- Pushing a `filterMap` through a `flatMap`. -/
theorem filterMap_flatMap_comm {α β γ : Type} (l : List α) (f : α → List β)
    (g : β → Option γ) :
    (l.flatMap f).filterMap g = l.flatMap (fun a => (f a).filterMap g) := by
  induction l with
  | nil => rfl
  | cons a t ih => simp [List.flatMap_cons, List.filterMap_append, ih]

/-- The flattened list of arguments of all crate-level `doc(cfg_hide(...))`
attributes, in traversal order: the inputs the finalizer's harvest parses. -/
def cfgHideArgs (attrs : List Attr) : List CfgSpec :=
  (((attrs.filter (fun attr => attr.name == "doc")).flatMap
      (fun attr => attr.args.getD [])).filter
      (fun attr => attr.name == "cfg_hide")).flatMap
    (fun attr => attr.args.getD [])

/-- C7: `inherits_doc_hidden` returns `true` iff some scope on the chain of
lexically enclosing scopes (starting at the node's immediate parent and
ending where `get_enclosing_scope` runs out, i.e. at — and excluding — the
crate root) carries a `doc(hidden)` marker, and `false` when the chain is
exhausted without a match.  The hypothesis says the fuel suffices to walk
the whole chain; being a Lean function, the embedding is pure, so redundant
calls agree by definition. -/
theorem inherits_doc_hidden_iff (env : Env) (fuel node : Nat)
    (h : scopeChainDone env fuel node = true) :
    inherits_doc_hidden env fuel node = true ↔
      ∃ a ∈ scopeChain env fuel node, env.docHiddenWord a = true := by
  induction fuel generalizing node with
  | zero =>
    simp only [inherits_doc_hidden, scopeChain]
    simp
  | succ fuel ih =>
    simp only [scopeChainDone] at h
    simp only [inherits_doc_hidden, scopeChain]
    cases he : env.enclosingScope node with
    | none => simp
    | some a =>
      rw [he] at h
      simp only []
      rw [Bool.or_eq_true, ih a h]
      constructor
      · rintro (h1 | ⟨x, hx, hxh⟩)
        · exact ⟨a, List.mem_cons_self a _, h1⟩
        · exact ⟨x, List.mem_cons_of_mem _ hx, hxh⟩
      · rintro ⟨x, hx, hxh⟩
        rcases List.mem_cons.mp hx with rfl | hx'
        · exact Or.inl hxh
        · exact Or.inr ⟨x, hx', hxh⟩

/-- C8: the path-recording operation is idempotent and the exact-path cache
is write-once — storing for `did` never changes an existing entry (first
write wins), other keys are untouched — and after the full walk the cache
holds paths only for public definitions. -/
theorem store_path_write_once (env : Env) (s : VState) (did d2 : Nat) :
    store_path env (store_path env s did) did = store_path env s did ∧
    (store_path env s did).exactPaths.lookup d2 =
      (if d2 = did
       then some (((s.exactPaths.lookup did).getD (def_id_to_path env did)))
       else s.exactPaths.lookup d2) ∧
    (∀ fuel, ((visit env fuel).exactPaths.all
      (fun e => env.visPublic e.1)) = true) := by
  refine ⟨?_, ?_, ?_⟩
  · unfold store_path
    cases h : (s.exactPaths.lookup did : Option (List String)) with
    | some p => simp [h]
    | none => simp [h, List.lookup]
  · unfold store_path
    cases h : (s.exactPaths.lookup did : Option (List String)) with
    | some p =>
      simp only [h]
      split
      · rename_i heq; subst heq; simp [h]
      · rfl
    | none =>
      simp only [h, List.lookup]
      split
      · rename_i heq
        have hEq : d2 = did := by simpa using heq
        simp [hEq, h]
      · rename_i hne
        have hne' : ¬ d2 = did := by simpa using hne
        simp [hne']
  · intro fuel
    rw [List.all_eq_true]
    intro e he
    have hp := ((visitPres env fuel).2.2.2.2.2.2.1 (initState env) CRATE_HIR_ID
      env.rootItems).paths_pub e
    have : e ∈ (visit_mod_contents env fuel (initState env) CRATE_HIR_ID
        env.rootItems).exactPaths := he
    rcases hp this with hmem | hpub
    · exact absurd hmem (by simp [initState])
    · exact hpub

/-- C9: the `cfg_hide` harvest of the finalizer — each malformed predicate
contributes exactly one diagnostic and no entry in the config-hide set, all
well-formed predicates are collected, traversal runs to completion, and the
set always also contains the built-in predicates `test`, `doc` and
`doctest`. -/
theorem hidden_cfg_characterization (attrs : List Attr) :
    hidden_cfg attrs =
      (cfgHideArgs attrs).filterMap cfgSpecOk ++
        [⟨"test", none⟩, ⟨"doc", none⟩, ⟨"doctest", none⟩] ∧
    hidden_cfg_diags attrs = (cfgHideArgs attrs).filterMap cfgSpecErr ∧
    Cfg.mk "test" none ∈ hidden_cfg attrs ∧
    Cfg.mk "doc" none ∈ hidden_cfg attrs ∧
    Cfg.mk "doctest" none ∈ hidden_cfg attrs := by
  refine ⟨?_, ?_, ?_, ?_, ?_⟩
  · unfold hidden_cfg cfgHideArgs
    rw [filterMap_flatMap_comm]
  · unfold hidden_cfg_diags cfgHideArgs
    rw [filterMap_flatMap_comm]
  · unfold hidden_cfg; simp
  · unfold hidden_cfg; simp
  · unfold hidden_cfg; simp

/-- C1: the inlining policy of `maybe_inline_local` on an import whose
target has a local representation: if the import carries `doc(no_inline)`
or `doc(hidden)` the call returns `false`; and it can return `true` only
when that flag is absent and the inlining gate holds (`please_inline`, or
the target is not directly public, or the target inherits `doc(hidden)`);
in every other case it returns `false`. -/
theorem maybe_inline_local_policy (env : Env) (fuel id : Nat) (res : Res)
    (renamed : Option String) (glob please_inline : Bool) (s : VState)
    (did rid : Nat) (hdid : res.optDefId = some did)
    (hloc : env.localHir did = some rid) :
    ((env.docNoInlineWord id || env.docHiddenWord id) = true →
      (maybe_inline_local env (fuel + 1) id res renamed glob please_inline s).1 = false) ∧
    ((maybe_inline_local env (fuel + 1) id res renamed glob please_inline s).1 = true →
      (env.docNoInlineWord id || env.docHiddenWord id) = false ∧
      (please_inline = true ∨ env.directlyPublic did = false ∨
        inherits_doc_hidden env fuel rid = true)) := by
  constructor
  · intro hno
    simp only [maybe_inline_local, hdid, hloc]
    split
    · rfl
    · simp [hno]
  · intro htrue
    simp only [maybe_inline_local, hdid, hloc, Option.isSome_some,
      Bool.not_true, Bool.false_and] at htrue
    split at htrue
    · exact absurd htrue (by simp)
    · split at htrue
      · exact absurd htrue (by simp)
      · split at htrue
        · exact absurd htrue (by simp)
        · rename_i hcond
          clear htrue
          cases hni : env.docNoInlineWord id <;>
            cases hhi : env.docHiddenWord id <;>
              cases hp : please_inline <;>
                cases hpv : env.directlyPublic did <;>
                  cases hhd : inherits_doc_hidden env fuel rid <;>
                    simp_all

/-! ## Concrete environments for witnesses and counterexamples -/

/-- A neutral compiler context: every query returns the least interesting
answer; scenarios below override individual fields. -/
def baseEnv : Env where
  item := fun _ => ⟨0, "x", 0, ItemKind.fn⟩
  getNode := fun _ => Node.other
  foreignItem := fun _ => ⟨0, "f", 0⟩
  enclosingScope := fun _ => none
  docHiddenWord := fun _ => false
  docNoInlineWord := fun _ => false
  docInlineWord := fun _ => false
  visPublic := fun _ => true
  directlyPublic := fun _ => true
  localHir := fun _ => none
  hirToDef := fun n => n
  macroExportAttr := fun _ => false
  isJson := false
  moduleReexports := none
  crateAttrs := []
  crateName := "c"
  crateNameOf := fun _ => "c"
  defPathData := fun _ => []
  rootInnerSpan := 0
  rootItems := []
  nestedItems := fun _ => []

/-- The observable shape of a module's recorded items: hir id of the item,
the rename, and the re-exporting import's id. -/
def Module.itemEntries (m : Module) : List (Nat × Option String × Option Nat) :=
  m.items.map (fun e => (e.1.hirId, e.2.1, e.2.2))

/-- The idents of a module's recorded items, for name-collision checks. -/
def Module.itemIdents (m : Module) : List String :=
  m.items.map (fun e => e.1.ident)

/-- Cycle scenario: the crate root re-exports module `ma` (hir 10) by glob;
`ma` contains a glob re-export (hir 11) of module `mb` (hir 20), which
contains a glob re-export (hir 21) of `ma` again — the chain A → B → A,
every import marked `doc(inline)`. -/
def itemU1 : Item := ⟨1, "a", 1, ItemKind.use_ [Res.def_ DefKind.other 10] UseKind.glob⟩

/-- The re-export inside `ma` targeting `mb`. -/
def itemU2 : Item := ⟨11, "b", 11, ItemKind.use_ [Res.def_ DefKind.other 20] UseKind.glob⟩

/-- The re-export inside `mb` targeting `ma` — closing the cycle. -/
def itemU3 : Item := ⟨21, "a2", 21, ItemKind.use_ [Res.def_ DefKind.other 10] UseKind.glob⟩

/-- Module `ma` (def id = hir id 10), containing `itemU2`. -/
def itemA : Item := ⟨10, "ma", 10, ItemKind.mod_ 0 [11]⟩

/-- Module `mb` (def id = hir id 20), containing `itemU3`. -/
def itemB : Item := ⟨20, "mb", 20, ItemKind.mod_ 0 [21]⟩

/-- The environment of the cycle scenario. -/
def cycEnv : Env :=
  { baseEnv with
    item := fun n =>
      if n = 1 then itemU1 else if n = 11 then itemU2
      else if n = 21 then itemU3 else if n = 10 then itemA
      else if n = 20 then itemB else ⟨0, "x", 0, ItemKind.fn⟩
    getNode := fun n =>
      if n = 10 then Node.item itemA
      else if n = 20 then Node.item itemB else Node.other
    localHir := fun d =>
      if d = 10 then some 10 else if d = 20 then some 20 else none
    docInlineWord := fun h => h == 1 || h == 11 || h == 21 }

/-- C2: the inlining visit stack discipline — a call whose target is already
on the stack returns `false` and leaves the whole state (stack included)
untouched; every call restores the stack on exit; the crate-root id is
pre-seeded, so a re-export of the crate root is never inlined; and in the
concrete A → B → A forced-inline cycle exactly one cycle member is expanded
while the other is recorded as a plain re-export entry, with the stack
restored. -/
theorem view_item_stack_discipline (env : Env) :
    (∀ fuel id res renamed glob pi s did rid,
      res.optDefId = some did → env.localHir did = some rid →
      rid ∈ s.viewItemStack →
      maybe_inline_local env fuel id res renamed glob pi s = (false, s)) ∧
    (∀ fuel id res renamed glob pi s,
      (maybe_inline_local env fuel id res renamed glob pi s).2.viewItemStack =
        s.viewItemStack) ∧
    CRATE_HIR_ID ∈ (initState env).viewItemStack ∧
    (∀ fuel id res renamed glob pi s did,
      res.optDefId = some did → env.localHir did = some CRATE_HIR_ID →
      CRATE_HIR_ID ∈ s.viewItemStack →
      (maybe_inline_local env fuel id res renamed glob pi s).1 = false) ∧
    ((maybe_inline_local cycEnv 50 1 (Res.def_ DefKind.other 10) none true true
        (initState cycEnv)).1 = true ∧
      (maybe_inline_local cycEnv 50 1 (Res.def_ DefKind.other 10) none true true
        (initState cycEnv)).2.viewItemStack = [CRATE_HIR_ID] ∧
      (maybe_inline_local cycEnv 50 1 (Res.def_ DefKind.other 10) none true true
        (initState cycEnv)).2.modules.map Module.itemEntries =
        [[(21, none, some 11)]]) := by
  have h1 : ∀ fuel id res renamed glob pi s did rid,
      res.optDefId = some did → env.localHir did = some rid →
      rid ∈ s.viewItemStack →
      maybe_inline_local env fuel id res renamed glob pi s = (false, s) := by
    intro fuel id res renamed glob pi s did rid hdid hloc hmem
    cases fuel with
    | zero => rfl
    | succ fuel =>
      simp only [maybe_inline_local, hdid, hloc, Option.isSome_some,
        Bool.not_true, Bool.false_and]
      split
      · rfl
      · split
        · rename_i hfalse; exact absurd hfalse (by simp)
        · split
          · rfl
          · split
            · rfl
            · rename_i hnc
              exact absurd (List.elem_eq_true_of_mem hmem) hnc
  refine ⟨h1, ?_, ?_, ?_, ?_⟩
  · intro fuel id res renamed glob pi s
    exact ((visitPres env fuel).1 id res renamed glob pi s).stack_eq
  · exact List.mem_singleton.mpr rfl
  · intro fuel id res renamed glob pi s did hdid hloc hmem
    rw [h1 fuel id res renamed glob pi s did CRATE_HIR_ID hdid hloc hmem]
  · exact ⟨by decide, by decide, by decide⟩

/-- C6 (amended): the per-item step returns `true` for every item — also for
those it skips without recording — and the generic walk descends into the
item's nested contents exactly when that boolean is `true`, hence always. -/
theorem visit_item_inner_always_processed (env : Env) :
    (∀ fuel s item renamed pid,
      (visit_item_inner env fuel s item renamed pid).1 = true) ∧
    (∀ fuel s i, visit_item env (fuel + 1) s i =
      walk_item_nested env fuel
        (visit_item_inner env fuel s i none
          (match s.modules with
           | _ :: m2 :: _ => some m2.id
           | _ => none)).2 i) := by
  have hret : ∀ fuel s item renamed pid,
      (visit_item_inner env fuel s item renamed pid).1 = true := by
    intro fuel s item renamed pid
    cases fuel with
    | zero => rfl
    | succ fuel =>
      simp only [visit_item_inner]
      repeat' split
      all_goals rfl
  refine ⟨hret, ?_⟩
  intro fuel s i
  simp only [visit_item, hret]
  simp

/-- The environment of the skipped-item scenario for C6: nothing is public,
so a bare-assembly item is recorded nowhere, yet the per-item step reports
`true`. -/
def envAsm : Env := { baseEnv with visPublic := fun _ => false }

/-- C6 counterexample: on a bare-assembly item the per-item step records
nothing — the module tree and the path cache are untouched — yet it returns
`true`, not `false`; so the return value is not "was this item
recorded/processed". -/
theorem visit_item_inner_true_on_skipped_item :
    (visit_item_inner envAsm 1 (initState envAsm)
      ⟨9, "a", 9, ItemKind.globalAsm⟩ none none).1 = true ∧
    (visit_item_inner envAsm 1 (initState envAsm)
      ⟨9, "a", 9, ItemKind.globalAsm⟩ none none).2.modules.map
        Module.itemEntries = [[]] ∧
    (visit_item_inner envAsm 1 (initState envAsm)
      ⟨9, "a", 9, ItemKind.globalAsm⟩ none none).2.exactPaths = [] := by
  exact ⟨by decide, by decide, by decide⟩

/-- The two-target import of the multi-resolution scenario for C10: one
`use` item whose path resolves to two distinct public local definitions. -/
def itemUse2 : Item :=
  ⟨4, "t", 4, ItemKind.use_
    [Res.def_ DefKind.other 100, Res.def_ DefKind.other 101] UseKind.single⟩

/-- The environment of the multi-resolution scenario: both targets are
local and publicly reachable, so neither is inlined. -/
def envTwoRes : Env :=
  { baseEnv with
    localHir := fun d =>
      if d = 100 then some 100 else if d = 101 then some 101 else none }

/-- C10: the per-resolution loop of the import arm — constructor-stub
resolutions produce nothing; outside the public gate, each remaining
resolution appends the import entry; inside the gate, the entry is appended
exactly when the resolver does not inline; resolutions are processed one
after another (left fold); and on the concrete two-target import the same
entry is appended twice, once per non-inlined resolution. -/
theorem use_resolutions_per_target (env : Env) :
    (∀ fuel item renamed pid name ip k s d,
      visit_use_res_step env fuel item renamed pid name ip k
        (Res.def_ DefKind.ctor d) s = s ∧
      visit_use_res_step env fuel item renamed pid name ip k
        (Res.selfCtor d) s = s) ∧
    (∀ fuel item renamed pid name ip k res s,
      (∀ d, res ≠ Res.def_ DefKind.ctor d) → (∀ d, res ≠ Res.selfCtor d) →
      (ip && s.insidePublicPath) = false →
      visit_use_res_step env (fuel + 1) item renamed pid name ip k res s =
        add_to_current_mod s item renamed pid) ∧
    (∀ fuel item renamed pid name ip k res s,
      (∀ d, res ≠ Res.def_ DefKind.ctor d) → (∀ d, res ≠ Res.selfCtor d) →
      (ip && s.insidePublicPath) = true →
      ((maybe_inline_local env fuel item.hirId res
          (if (k == UseKind.glob) = true then none else some name)
          (k == UseKind.glob) (env.docInlineWord item.hirId) s).1 = true →
        visit_use_res_step env (fuel + 1) item renamed pid name ip k res s =
          (maybe_inline_local env fuel item.hirId res
            (if (k == UseKind.glob) = true then none else some name)
            (k == UseKind.glob) (env.docInlineWord item.hirId) s).2) ∧
      ((maybe_inline_local env fuel item.hirId res
          (if (k == UseKind.glob) = true then none else some name)
          (k == UseKind.glob) (env.docInlineWord item.hirId) s).1 = false →
        visit_use_res_step env (fuel + 1) item renamed pid name ip k res s =
          add_to_current_mod
            (maybe_inline_local env fuel item.hirId res
              (if (k == UseKind.glob) = true then none else some name)
              (k == UseKind.glob) (env.docInlineWord item.hirId) s).2
            item renamed pid)) ∧
    (∀ fuel item renamed pid name ip k res rest s,
      visit_use_resolutions env (fuel + 1) item renamed pid name ip k
        (res :: rest) s =
      visit_use_resolutions env fuel item renamed pid name ip k rest
        (visit_use_res_step env fuel item renamed pid name ip k res s)) ∧
    ((visit_use_resolutions envTwoRes 20 itemUse2 none none "t" true
        UseKind.single
        [Res.def_ DefKind.other 100, Res.def_ DefKind.other 101]
        (initState envTwoRes)).modules.map Module.itemEntries =
      [[(4, none, none), (4, none, none)]]) := by
  refine ⟨?_, ?_, ?_, ?_, by decide⟩
  · intro fuel item renamed pid name ip k s d
    exact ⟨by cases fuel <;> rfl, by cases fuel <;> rfl⟩
  · intro fuel item renamed pid name ip k res s hc hsc hgate
    cases res with
    | def_ dk d =>
      cases dk with
      | ctor => exact absurd rfl (hc d)
      | macroKind => simp [visit_use_res_step, hgate]
      | other => simp [visit_use_res_step, hgate]
    | selfCtor d => exact absurd rfl (hsc d)
    | nonDef => simp [visit_use_res_step, hgate]
  · intro fuel item renamed pid name ip k res s hc hsc hgate
    cases res with
    | def_ dk d =>
      cases dk with
      | ctor => exact absurd rfl (hc d)
      | macroKind =>
        constructor
        · intro hml
          simp only [visit_use_res_step, hgate]
          rw [if_pos trivial, hml, if_pos rfl]
        · intro hml
          simp only [visit_use_res_step, hgate]
          rw [if_pos trivial, hml, if_neg (by simp)]
      | other =>
        constructor
        · intro hml
          simp only [visit_use_res_step, hgate]
          rw [if_pos trivial, hml, if_pos rfl]
        · intro hml
          simp only [visit_use_res_step, hgate]
          rw [if_pos trivial, hml, if_neg (by simp)]
    | selfCtor d => exact absurd rfl (hsc d)
    | nonDef =>
      constructor
      · intro hml
        simp only [visit_use_res_step, hgate]
        rw [if_pos trivial, hml, if_pos rfl]
      · intro hml
        simp only [visit_use_res_step, hgate]
        rw [if_pos trivial, hml, if_neg (by simp)]
  · intro fuel item renamed pid name ip k res rest s
    rfl

/-- The qualifying targets of the finalizer's macro promotion, read off the
re-export resolutions in order: def ids resolving to a locally defined
macro that carries the `macro_export` marker. -/
def macroReexportTargets (env : Env) (rl : List Res) : List Nat :=
  rl.filterMap (fun r =>
    match r with
    | Res.def_ DefKind.macroKind d =>
      if (env.localHir d).isSome && env.macroExportAttr d then some d else none
    | _ => none)

/-- First occurrences of a list's elements, skipping anything in `seen`:
the order in which a grow-only seen-set admits elements. -/
def dedupFirstAux (seen : List Nat) : List Nat → List Nat
  | [] => []
  | x :: xs =>
    if seen.contains x then dedupFirstAux seen xs
    else x :: dedupFirstAux (x :: seen) xs

theorem dedupFirstAux_spec (l : List Nat) : ∀ seen : List Nat,
    (dedupFirstAux seen l).Nodup ∧
      ∀ d, d ∈ dedupFirstAux seen l ↔ (d ∈ l ∧ d ∉ seen) := by
  induction l with
  | nil => intro seen; simp [dedupFirstAux]
  | cons x xs ih =>
    intro seen
    by_cases hx : x ∈ seen
    · have hc : seen.contains x = true := List.elem_eq_true_of_mem hx
      have hred : dedupFirstAux seen (x :: xs) = dedupFirstAux seen xs := by
        simp only [dedupFirstAux, hc]
        rw [if_pos (by trivial)]
      rw [hred]
      obtain ⟨hnd, hmem⟩ := ih seen
      refine ⟨hnd, fun d => ?_⟩
      rw [hmem d]
      constructor
      · rintro ⟨h1, h2⟩; exact ⟨List.mem_cons_of_mem _ h1, h2⟩
      · rintro ⟨h1, h2⟩
        rcases List.mem_cons.mp h1 with rfl | h1'
        · exact absurd hx h2
        · exact ⟨h1', h2⟩
    · have hc : seen.contains x = false := by
        cases h : seen.contains x
        · rfl
        · exact absurd (List.mem_of_elem_eq_true h) hx
      have hred : dedupFirstAux seen (x :: xs) =
          x :: dedupFirstAux (x :: seen) xs := by
        simp only [dedupFirstAux, hc]
        rw [if_neg (by simp)]
      rw [hred]
      obtain ⟨hnd, hmem⟩ := ih (x :: seen)
      constructor
      · refine List.Nodup.cons ?_ hnd
        intro hxin
        exact ((hmem x).mp hxin).2 (List.mem_cons_self x seen)
      · intro d
        rw [List.mem_cons, hmem d]
        constructor
        · rintro (rfl | ⟨h1, h2⟩)
          · exact ⟨List.mem_cons_self d xs, hx⟩
          · exact ⟨List.mem_cons_of_mem _ h1,
              fun hds => h2 (List.mem_cons_of_mem _ hds)⟩
        · rintro ⟨h1, h2⟩
          by_cases hdx : d = x
          · exact Or.inl hdx
          · refine Or.inr ⟨?_, fun hds => ?_⟩
            · rcases List.mem_cons.mp h1 with rfl | h1'
              · exact absurd rfl hdx
              · exact h1'
            · rcases List.mem_cons.mp hds with rfl | hds'
              · exact hdx rfl
              · exact h2 hds'

theorem promote_macro_reexports_items (env : Env) : ∀ (rl : List Res)
    (inserted : List Nat) (m : Module),
    (promote_macro_reexports env rl inserted m).1.items =
      m.items ++ (dedupFirstAux inserted (macroReexportTargets env rl)).map
        (fun d => (env.item ((env.localHir d).getD 0), none, none)) := by
  intro rl
  induction rl with
  | nil =>
    intro inserted m
    simp [promote_macro_reexports, macroReexportTargets, dedupFirstAux]
  | cons r rest ih =>
    intro inserted m
    cases r with
    | def_ dk d =>
      cases dk with
      | ctor =>
        show (promote_macro_reexports env rest inserted m).1.items = _
        rw [ih inserted m]
        rfl
      | other =>
        show (promote_macro_reexports env rest inserted m).1.items = _
        rw [ih inserted m]
        rfl
      | macroKind =>
        have htargets : macroReexportTargets env (Res.def_ DefKind.macroKind d :: rest) =
            (if (env.localHir d).isSome && env.macroExportAttr d
             then d :: macroReexportTargets env rest
             else macroReexportTargets env rest) := by
          cases hcnd : ((env.localHir d).isSome && env.macroExportAttr d) with
          | false =>
            have h' : ¬((env.localHir d).isSome = true ∧
                env.macroExportAttr d = true) := by
              rw [← Bool.and_eq_true, hcnd]; simp
            simp [macroReexportTargets, List.filterMap_cons, h', hcnd]
          | true =>
            have h' : (env.localHir d).isSome = true ∧
                env.macroExportAttr d = true := by
              rw [← Bool.and_eq_true, hcnd]
            simp [macroReexportTargets, List.filterMap_cons, h', hcnd]
        cases hl : env.localHir d with
        | none =>
          have hstep : promote_macro_reexports env
              (Res.def_ DefKind.macroKind d :: rest) inserted m =
              promote_macro_reexports env rest inserted m := by
            simp only [promote_macro_reexports, hl]
          rw [hstep, ih inserted m, htargets, hl]
          simp
        | some hh =>
          cases hme : env.macroExportAttr d with
          | false =>
            have hstep : promote_macro_reexports env
                (Res.def_ DefKind.macroKind d :: rest) inserted m =
                promote_macro_reexports env rest inserted m := by
              simp only [promote_macro_reexports, hl, hme]
              rw [if_neg (by simp)]
            rw [hstep, ih inserted m, htargets, hl, hme]
            simp
          | true =>
            cases hctn : inserted.contains d with
            | true =>
              have hd_in : d ∈ inserted := List.mem_of_elem_eq_true hctn
              have hstep : promote_macro_reexports env
                  (Res.def_ DefKind.macroKind d :: rest) inserted m =
                  promote_macro_reexports env rest inserted m := by
                simp only [promote_macro_reexports, hl, hme, hctn]
                rw [if_neg (by simp)]
              have hded : dedupFirstAux inserted (d :: macroReexportTargets env rest) =
                  dedupFirstAux inserted (macroReexportTargets env rest) := by
                simp only [dedupFirstAux, hctn]
                rw [if_pos (by trivial)]
              rw [hstep, ih inserted m, htargets, hl, hme]
              simp [hded]
            | false =>
              have hstep : promote_macro_reexports env
                  (Res.def_ DefKind.macroKind d :: rest) inserted m =
                  promote_macro_reexports env rest (d :: inserted)
                    (m.pushItem (env.item hh, none, none)) := by
                simp only [promote_macro_reexports, hl, hme, hctn]
                rw [if_pos (by simp)]
              have hded : dedupFirstAux inserted (d :: macroReexportTargets env rest) =
                  d :: dedupFirstAux (d :: inserted) (macroReexportTargets env rest) := by
                simp only [dedupFirstAux, hctn]
                rw [if_neg (by simp)]
              rw [hstep, ih (d :: inserted) (m.pushItem (env.item hh, none, none)),
                htargets, hl, hme]
              simp [hded, hl]
    | selfCtor d =>
      show (promote_macro_reexports env rest inserted m).1.items = _
      rw [ih inserted m]
      rfl
    | nonDef =>
      show (promote_macro_reexports env rest inserted m).1.items = _
      rw [ih inserted m]
      rfl

/-- C4: the finalizer's macro promotion appends, after the walk-produced
items, exactly one `(item, no rename, no import)` entry per distinct
re-exported locally defined export-marked macro (first occurrence order,
the `inserted` set deduplicating repeats); and the per-item step of the
walk includes a macro definition at its lexical site iff it is the newer
non-`macro_rules` form, or lacks the export marker, or inlining is in
progress — so an export-marked legacy macro is listed exactly once at top
level. -/
theorem macro_promotion_exactness (env : Env) :
    (∀ rl inserted m,
      (promote_macro_reexports env rl inserted m).1.items =
        m.items ++ (dedupFirstAux inserted (macroReexportTargets env rl)).map
          (fun d => (env.item ((env.localHir d).getD 0), none, none))) ∧
    (∀ l seen, (dedupFirstAux seen l).Nodup ∧
      ∀ d, d ∈ dedupFirstAux seen l ↔ (d ∈ l ∧ d ∉ seen)) ∧
    (∀ fuel s item renamed pid mr, item.kind = ItemKind.macroDef mr →
      (s.inlining &&
        (!env.visPublic item.ownerDefId || renamed == some kwUnderscore)) = false →
      (visit_item_inner env (fuel + 1) s item renamed pid).2 =
        (if (!mr || !env.macroExportAttr item.ownerDefId || s.inlining) = true
         then add_to_current_mod
           (if env.visPublic item.ownerDefId
            then store_path env s item.ownerDefId else s) item renamed none
         else (if env.visPublic item.ownerDefId
               then store_path env s item.ownerDefId else s))) := by
  refine ⟨promote_macro_reexports_items env, fun l seen => dedupFirstAux_spec l seen, ?_⟩
  intro fuel s item renamed pid mr hk hguard
  have hinl : (if env.visPublic item.ownerDefId
      then store_path env s item.ownerDefId else s).inlining = s.inlining := by
    split <;> simp
  simp only [visit_item_inner, hk, hinl, hguard]
  rw [if_neg (by simp)]
  split <;> rfl

/-- C5 counterexample input: a public `extern crate ... as _`-style item —
its own ident is the placeholder name while `renamed` is `None`. -/
def itemUnderscoreEC : Item := ⟨7, "_", 7, ItemKind.externCrate⟩

/-- C5 counterexample: while inlining, an item whose *effective* name (own
ident, no rename) is the placeholder name is nevertheless recorded — the
skip guard tests the rename (`renamed == Some(kw::Underscore)`), not the
effective name — contradicting the claim that any such item is skipped
entirely. -/
theorem underscore_ident_recorded_while_inlining :
    (visit_item_inner baseEnv 1 { initState baseEnv with inlining := true }
      itemUnderscoreEC none none).2.modules.map Module.itemEntries =
    [[(7, none, none)]] := by decide

/-- C5 (amended): while inlining, any item other than a foreign-module
block that is not public or that is re-exported under the placeholder name
(`renamed = Some "_"`) is skipped and recorded in no module; outside of
inlining, a constant whose effective name is the placeholder is excluded,
while a module with that name is not — its frame is still built and
attached to the parent's child list under that name. -/
theorem inlining_skip_and_discard_names (env : Env) :
    (∀ fuel s item renamed pid,
      (∀ fids, item.kind ≠ ItemKind.foreignMod fids) →
      s.inlining = true →
      (env.visPublic item.ownerDefId = false ∨ renamed = some kwUnderscore) →
      (visit_item_inner env fuel s item renamed pid).2.modules = s.modules) ∧
    (∀ fuel s item renamed pid,
      item.kind = ItemKind.const → s.inlining = false →
      renamed.getD item.ident = kwUnderscore →
      (visit_item_inner env fuel s item renamed pid).2.modules = s.modules) ∧
    (∀ fuel s item renamed pid sp mids,
      item.kind = ItemKind.mod_ sp mids → s.inlining = false →
      s.modules ≠ [] →
      ∃ hd rest m',
        (visit_item_inner env (fuel + 2) s item renamed pid).2.modules =
          hd :: rest ∧
        m' ∈ hd.mods ∧ m'.name = renamed.getD item.ident) := by
  refine ⟨?_, ?_, ?_⟩
  · intro fuel s item renamed pid hforeign hinl hdisj
    cases fuel with
    | zero => rfl
    | succ fuel =>
      have hbool : (!env.visPublic item.ownerDefId ||
          renamed == some kwUnderscore) = true := by
        rcases hdisj with hpub | hren
        · simp [hpub]
        · subst hren; simp
      simp only [visit_item_inner]
      repeat' split
      all_goals
        first
          | exact absurd (by assumption) (hforeign _)
          | simp_all
  · intro fuel s item renamed pid hk hinl hname
    cases fuel with
    | zero => rfl
    | succ fuel =>
      simp only [visit_item_inner, hk]
      repeat' split
      all_goals simp_all [kwUnderscore]
  · intro fuel s item renamed pid sp mids hk hinl hne
    cases hsm : s.modules with
    | nil => exact absurd hsm hne
    | cons p ps =>
      simp only [visit_item_inner, hk]
      have hinlIf : (if env.visPublic item.ownerDefId
          then store_path env s item.ownerDefId else s).inlining = s.inlining := by
        split <;> simp
      have hmodIf : (if env.visPublic item.ownerDefId
          then store_path env s item.ownerDefId else s).modules = s.modules := by
        split <;> simp
      rw [show ((if env.visPublic item.ownerDefId
            then store_path env s item.ownerDefId else s).inlining &&
          (!env.visPublic item.ownerDefId || renamed == some kwUnderscore)) = false by
        rw [hinlIf, hinl, Bool.false_and]]
      rw [if_neg (by simp)]
      simp only [enter_mod]
      generalize hS :
        (if env.visPublic item.ownerDefId
         then store_path env s item.ownerDefId else s) = s'
      rw [hS] at hmodIf
      have h1 := ((visitPres env fuel).2.2.2.2.2.2.1
        { s' with modules :=
            Module.new (renamed.getD item.ident) item.hirId sp :: s'.modules }
        item.hirId mids)
      have hm : List.Forall₂ ModExt
          (Module.new (renamed.getD item.ident) item.hirId sp :: s'.modules)
          (visit_mod_contents env fuel
            { s' with modules :=
                Module.new (renamed.getD item.ident) item.hirId sp :: s'.modules }
            item.hirId mids).modules := h1.mods_ext
      rcases List.forall₂_cons_left_iff.mp hm with ⟨last, rest', hlast, hrest, hmodeq⟩
      rw [hmodIf, hsm] at hrest
      rcases List.forall₂_cons_left_iff.mp hrest with ⟨mm, rest2, hpm, hps, hmodeq2⟩
      split
      · rename_i last2 m2 rest3 heq
        refine ⟨m2.withMods (m2.mods ++ [last2]), rest3, last2, rfl, ?_, ?_⟩
        · simp only [Module.mods_withMods]
          exact List.mem_append_right _ (List.mem_singleton.mpr rfl)
        · rw [heq] at hmodeq
          obtain ⟨hl2, hr2⟩ := List.cons_eq_cons.mp hmodeq
          subst hl2
          exact hlast.name_eq.trans (Module.name_new _ _ _)
      · rename_i hno
        exact absurd (show _ = last :: mm :: rest2 by rw [hmodeq, hmodeq2])
          (hno last mm rest2)

/-- Glob-precedence scenario for C3: the crate root declares, in this
order, a glob import (hir 2) of the private module `m` (hir 30, containing
a public struct `x`, hir 31) and then a struct also named `x` (hir 3). -/
def itemUseGlobM : Item :=
  ⟨2, "m", 2, ItemKind.use_ [Res.def_ DefKind.other 30] UseKind.glob⟩

/-- The directly declared struct `x` of the glob-precedence scenario. -/
def itemXdirect : Item := ⟨3, "x", 3, ItemKind.struct_⟩

/-- The private module `m` of the glob-precedence scenario. -/
def itemModM : Item := ⟨30, "m", 30, ItemKind.mod_ 0 [31]⟩

/-- The glob-contributed struct `x` inside `m`. -/
def itemXinner : Item := ⟨31, "x", 31, ItemKind.struct_⟩

/-- The environment of the glob-precedence scenario: module `m` is local
and not publicly reachable, so the glob import of it is inlined. -/
def envGlob : Env :=
  { baseEnv with
    item := fun n =>
      if n = 2 then itemUseGlobM else if n = 3 then itemXdirect
      else if n = 30 then itemModM else if n = 31 then itemXinner
      else ⟨0, "y", 0, ItemKind.fn⟩
    getNode := fun n => if n = 30 then Node.item itemModM else Node.other
    localHir := fun d => if d = 30 then some 30 else none
    directlyPublic := fun d => !(d == 30)
    rootItems := [2, 3] }

/-- C3: `visit_mod_contents` runs two passes over the module body — the
first visits exactly the non-glob children, the second exactly the glob
imports, each in declaration order — so everything recorded in the current
module by the first pass is a prefix of the final item list (all direct
entries precede all glob-contributed ones); concretely, with a glob import
declared *before* a direct `x`, the direct `x` entry still comes first and
the glob-contributed `x` second. -/
theorem two_pass_glob_precedence (env : Env) :
    (∀ fuel s id ids,
      visit_mod_contents env (fuel + 1) s id ids =
        { visit_mod_items env fuel true
            (visit_mod_items env fuel false
              { s with insidePublicPath :=
                  s.insidePublicPath && env.visPublic (env.hirToDef id) } ids)
            ids with
          insidePublicPath := s.insidePublicPath }) ∧
    (∀ fuel gp s i rest,
      (isGlobUse (env.item i) ≠ gp →
        visit_mod_items env (fuel + 1) gp s (i :: rest) =
          visit_mod_items env fuel gp s rest) ∧
      (isGlobUse (env.item i) = gp →
        visit_mod_items env (fuel + 1) gp s (i :: rest) =
          visit_mod_items env fuel gp (visit_item env fuel s (env.item i)) rest)) ∧
    (∀ fuel s id ids, s.modules ≠ [] →
      ∃ hd1 r1 hd2 r2,
        (visit_mod_items env fuel false
          { s with insidePublicPath :=
              s.insidePublicPath && env.visPublic (env.hirToDef id) } ids).modules
          = hd1 :: r1 ∧
        (visit_mod_contents env (fuel + 1) s id ids).modules = hd2 :: r2 ∧
        hd1.items <+: hd2.items) ∧
    ((visit_mod_contents envGlob 20 (initState envGlob) CRATE_HIR_ID
        [2, 3]).modules.map Module.itemEntries =
      [[(3, none, none), (31, none, some 2)]] ∧
     (visit_mod_contents envGlob 20 (initState envGlob) CRATE_HIR_ID
        [2, 3]).modules.map Module.itemIdents = [["x", "x"]]) := by
  refine ⟨fun fuel s id ids => rfl, ?_, ?_, by decide, by decide⟩
  · intro fuel gp s i rest
    constructor
    · intro hne
      have hbeq : (isGlobUse (env.item i) == gp) = false := by
        cases h : isGlobUse (env.item i) == gp
        · rfl
        · exact absurd (eq_of_beq h) hne
      simp only [visit_mod_items, hbeq]
      rw [if_neg (by simp)]
    · intro heq
      have hbeq : (isGlobUse (env.item i) == gp) = true := by simp [heq]
      simp only [visit_mod_items, hbeq]
      rw [if_pos (by trivial)]
  · intro fuel s id ids hne
    obtain ⟨p, ps, hsm⟩ : ∃ p ps, s.modules = p :: ps := by
      cases h : s.modules with
      | nil => exact absurd h hne
      | cons a l => exact ⟨a, l, rfl⟩
    · have h1 := (visitPres env fuel).2.2.2.2.2.2.2.1 false
        { s with insidePublicPath :=
            s.insidePublicPath && env.visPublic (env.hirToDef id) } ids
      have hm1 : List.Forall₂ ModExt (p :: ps)
          (visit_mod_items env fuel false
            { s with insidePublicPath :=
                s.insidePublicPath && env.visPublic (env.hirToDef id) } ids).modules := by
        rw [← hsm]; exact h1.mods_ext
      rcases List.forall₂_cons_left_iff.mp hm1 with ⟨hd1, r1, hp1, hr1, hmodeq1⟩
      have h2 := (visitPres env fuel).2.2.2.2.2.2.2.1 true
        (visit_mod_items env fuel false
          { s with insidePublicPath :=
              s.insidePublicPath && env.visPublic (env.hirToDef id) } ids) ids
      have hm2 := h2.mods_ext
      rw [hmodeq1] at hm2
      rcases List.forall₂_cons_left_iff.mp hm2 with ⟨hd2, r2, hp2, hr2, hmodeq2⟩
      exact ⟨hd1, r1, hd2, r2, hmodeq1, hmodeq2, hp2.items_pre⟩

/-! ## Witnesses: the claim theorems applied at concrete inputs -/

/-- A chain of scopes 5 → 4 → 3 → 2 with `doc(hidden)` on scope 3: the
hidden-inheritance scenario. -/
def envScope : Env :=
  { baseEnv with
    enclosingScope := fun n =>
      if n = 5 then some 4 else if n = 4 then some 3
      else if n = 3 then some 2 else none
    docHiddenWord := fun n => n == 3 }

theorem inherits_doc_hidden_iff_witness :
    inherits_doc_hidden envScope 10 5 = true ↔
      ∃ a ∈ scopeChain envScope 10 5, envScope.docHiddenWord a = true :=
  inherits_doc_hidden_iff envScope 10 5 (by decide)

theorem maybe_inline_local_policy_witness :
    ((envGlob.docNoInlineWord 2 || envGlob.docHiddenWord 2) = true →
      (maybe_inline_local envGlob (9 + 1) 2 (Res.def_ DefKind.other 30) none true
        false (initState envGlob)).1 = false) ∧
    ((maybe_inline_local envGlob (9 + 1) 2 (Res.def_ DefKind.other 30) none true
        false (initState envGlob)).1 = true →
      (envGlob.docNoInlineWord 2 || envGlob.docHiddenWord 2) = false ∧
      (false = true ∨ envGlob.directlyPublic 30 = false ∨
        inherits_doc_hidden envGlob 9 30 = true)) :=
  maybe_inline_local_policy envGlob 9 2 (Res.def_ DefKind.other 30) none true
    false (initState envGlob) 30 30 (by decide) (by decide)

/-- A crate whose re-export with def id 99 resolves back to the crate root. -/
def envRootReexport : Env :=
  { baseEnv with
    localHir := fun d => if d = 99 then some CRATE_HIR_ID else none }

theorem view_item_stack_discipline_witness :
    maybe_inline_local cycEnv 5 21 (Res.def_ DefKind.other 10) none true true
      { initState cycEnv with viewItemStack := [10, CRATE_HIR_ID] } =
      (false, { initState cycEnv with viewItemStack := [10, CRATE_HIR_ID] }) ∧
    (maybe_inline_local envRootReexport 7 5 (Res.def_ DefKind.other 99) none
      false true (initState envRootReexport)).1 = false :=
  ⟨(view_item_stack_discipline cycEnv).1 5 21 (Res.def_ DefKind.other 10) none
      true true { initState cycEnv with viewItemStack := [10, CRATE_HIR_ID] }
      10 10 (by decide) (by decide) (by decide),
   (view_item_stack_discipline envRootReexport).2.2.2.1 7 5
      (Res.def_ DefKind.other 99) none false true (initState envRootReexport)
      99 (by decide) (by decide) (by decide)⟩

theorem two_pass_glob_precedence_witness :
    (visit_mod_items envGlob (5 + 1) false (initState envGlob) (2 :: [3]) =
      visit_mod_items envGlob 5 false (initState envGlob) [3]) ∧
    (visit_mod_items envGlob (5 + 1) true (initState envGlob) (2 :: [3]) =
      visit_mod_items envGlob 5 true
        (visit_item envGlob 5 (initState envGlob) (envGlob.item 2)) [3]) ∧
    (∃ hd1 r1 hd2 r2,
      (visit_mod_items envGlob 19 false
        { initState envGlob with insidePublicPath :=
            ((initState envGlob).insidePublicPath &&
              envGlob.visPublic (envGlob.hirToDef CRATE_HIR_ID)) } [2, 3]).modules
        = hd1 :: r1 ∧
      (visit_mod_contents envGlob (19 + 1) (initState envGlob) CRATE_HIR_ID
        [2, 3]).modules = hd2 :: r2 ∧
      hd1.items <+: hd2.items) :=
  ⟨((two_pass_glob_precedence envGlob).2.1 5 false (initState envGlob) 2 [3]).1
      (by decide),
   ((two_pass_glob_precedence envGlob).2.1 5 true (initState envGlob) 2 [3]).2
      (by decide),
   (two_pass_glob_precedence envGlob).2.2.1 19 (initState envGlob) CRATE_HIR_ID
      [2, 3] (List.cons_ne_nil _ _)⟩

/-- A locally defined legacy (`macro_rules`) export-marked macro, hir 8. -/
def itemMacro : Item := ⟨8, "mc", 8, ItemKind.macroDef true⟩

/-- The environment of the macro scenario: def id 8 carries `macro_export`. -/
def envMacro : Env := { baseEnv with macroExportAttr := fun d => d == 8 }

theorem macro_promotion_exactness_witness :
    (visit_item_inner envMacro (3 + 1) (initState envMacro) itemMacro none
      none).2 =
    (if (!true || !envMacro.macroExportAttr itemMacro.ownerDefId ||
          (initState envMacro).inlining) = true
     then add_to_current_mod
       (if envMacro.visPublic itemMacro.ownerDefId
        then store_path envMacro (initState envMacro) itemMacro.ownerDefId
        else initState envMacro) itemMacro none none
     else (if envMacro.visPublic itemMacro.ownerDefId
           then store_path envMacro (initState envMacro) itemMacro.ownerDefId
           else initState envMacro)) :=
  (macro_promotion_exactness envMacro).2.2 3 (initState envMacro) itemMacro
    none none true rfl (by decide)

/-- A non-public plain function item, skipped while inlining. -/
def itemPrivFn : Item := ⟨12, "f", 12, ItemKind.fn⟩

/-- An underscore constant (`const _`), its own ident the placeholder. -/
def itemUnderscoreConst : Item := ⟨13, "_", 13, ItemKind.const⟩

/-- A module declared under the placeholder name. -/
def itemUnderscoreMod : Item := ⟨14, "_", 14, ItemKind.mod_ 0 []⟩

theorem inlining_skip_and_discard_names_witness :
    ((visit_item_inner envAsm 5 { initState envAsm with inlining := true }
        itemPrivFn none none).2.modules =
      ({ initState envAsm with inlining := true } : VState).modules) ∧
    ((visit_item_inner baseEnv 5 (initState baseEnv) itemUnderscoreConst none
        none).2.modules = (initState baseEnv).modules) ∧
    (∃ hd rest m',
      (visit_item_inner baseEnv (5 + 2) (initState baseEnv) itemUnderscoreMod
        none none).2.modules = hd :: rest ∧
      m' ∈ hd.mods ∧ m'.name = (none : Option String).getD itemUnderscoreMod.ident) :=
  ⟨(inlining_skip_and_discard_names envAsm).1 5
      { initState envAsm with inlining := true } itemPrivFn none none
      (fun _ h => ItemKind.noConfusion h) rfl (Or.inl (by decide)),
   (inlining_skip_and_discard_names baseEnv).2.1 5 (initState baseEnv)
      itemUnderscoreConst none none rfl rfl (by decide),
   (inlining_skip_and_discard_names baseEnv).2.2 5 (initState baseEnv)
      itemUnderscoreMod none none 0 [] rfl rfl (List.cons_ne_nil _ _)⟩

theorem use_resolutions_per_target_witness :
    (visit_use_res_step envTwoRes (5 + 1) itemUse2 none none "t" true
      UseKind.single (Res.def_ DefKind.other 100)
      { initState envTwoRes with insidePublicPath := false } =
      add_to_current_mod
        { initState envTwoRes with insidePublicPath := false } itemUse2 none
        none) ∧
    ((maybe_inline_local envTwoRes 5 itemUse2.hirId (Res.def_ DefKind.other 100)
        (if (UseKind.single == UseKind.glob) = true then none else some "t")
        (UseKind.single == UseKind.glob) (envTwoRes.docInlineWord itemUse2.hirId)
        (initState envTwoRes)).1 = false →
      visit_use_res_step envTwoRes (5 + 1) itemUse2 none none "t" true
        UseKind.single (Res.def_ DefKind.other 100) (initState envTwoRes) =
        add_to_current_mod
          (maybe_inline_local envTwoRes 5 itemUse2.hirId
            (Res.def_ DefKind.other 100)
            (if (UseKind.single == UseKind.glob) = true then none else some "t")
            (UseKind.single == UseKind.glob)
            (envTwoRes.docInlineWord itemUse2.hirId)
            (initState envTwoRes)).2
          itemUse2 none none) :=
  ⟨(use_resolutions_per_target envTwoRes).2.1 5 itemUse2 none none "t" true
      UseKind.single (Res.def_ DefKind.other 100)
      { initState envTwoRes with insidePublicPath := false }
      (fun d h => by simp at h) (fun d h => by simp at h) (by decide),
   ((use_resolutions_per_target envTwoRes).2.2.1 5 itemUse2 none none "t" true
      UseKind.single (Res.def_ DefKind.other 100) (initState envTwoRes)
      (fun d h => by simp at h) (fun d h => by simp at h) (by decide)).2⟩

end VisitAst
